import Mathlib

/-!
Verification of the Context Budget Controller of the
SillyTavern-Context-Truncator extension (src/index.js).

The JavaScript source is shallowly embedded below.  Floating-point
arithmetic of the source is modelled over `ℚ`, machine integers over
`ℕ` / `ℤ` (token counts are non-negative, JS `Math.max(x - y, 0)` on
naturals is `ℕ` subtraction), `null`/`undefined` values over `Option`.
External collaborators (the host token counter, the raw-prompt
introspection, the vector store, the generation call) appear as
parameters or as abstract per-message data.
-/

namespace ContextTruncator

/-- A chat message as seen by the truncation estimator
(`calculate_truncation_index`, src/index.js:743-961).
`rawTokens` is the value of `estimateMessagePromptTokens(message, i)`
(mapped token count from the last raw prompt, or
`count_tokens(message.mes)` plus the role-header overhead);
`memory` is `count_tokens(get_memory(message))` when a non-empty summary
is stored and `none` otherwise;
`exclusionOk` is the value of `check_message_exclusion(message)`. -/
structure CtMsg where
  rawTokens : ℕ
  is_system : Bool
  memory : Option ℕ
  exclusionOk : Bool
deriving DecidableEq, Repr

/-- Contribution of message `m` at chat position `i` to
`estimateChatSize(startIndex)` (src/index.js:865-890): system messages are
skipped; kept messages (`i ≥ startIndex`) cost
`Math.floor(rawEstimate * CHAT_TOKEN_CORRECTION_FACTOR)`; lagging messages
cost their summary plus the separator when a summary exists and
`check_message_exclusion` passes, otherwise zero. -/
def message_contrib (cf : ℚ) (sepSize : ℕ) (startIndex i : ℕ) (m : CtMsg) : ℤ :=
  if m.is_system then 0
  else if startIndex ≤ i then ⌊(m.rawTokens : ℚ) * cf⌋
  else
    match m.memory with
    | some s => if m.exclusionOk then (s : ℤ) + sepSize else 0
    | none => 0

/-- The summation loop of `estimateChatSize` starting at chat position `i`. -/
def estimateChatSizeAux (cf : ℚ) (sepSize startIndex : ℕ) : ℕ → List CtMsg → ℤ
  | _, [] => 0
  | i, m :: rest =>
      message_contrib cf sepSize startIndex i m
        + estimateChatSizeAux cf sepSize startIndex (i + 1) rest

/-- Model of `estimateChatSize(startIndex)` (src/index.js:865-890): estimated chat
token total when all messages before `startIndex` are excluded. -/
def estimateChatSize (chat : List CtMsg) (cf : ℚ) (sepSize startIndex : ℕ) : ℤ :=
  estimateChatSizeAux cf sepSize startIndex 0 chat

/-- Body of the fine-grained scan inside the final batch
(src/index.js:918-927), recursing on the number `rem = stepEnd - i` of
remaining loop iterations: advance `nextIndex` to `i + 1` and stop as
soon as the estimated total at `i + 1` is at or under target. -/
def fine_scan_go (est : ℕ → ℤ) (nonChat T : ℤ) : ℕ → ℕ → ℕ
  | i, 0 => i
  | i, rem + 1 =>
      if est (i + 1) + nonChat ≤ T then i + 1
      else fine_scan_go est nonChat T (i + 1) rem

/-- The fine-grained scan `for (let i = nextIndex; i < stepEnd; i++)`
(src/index.js:918-927): the first `j ∈ (i, stepEnd]` whose estimated
total is at or under target, or `stepEnd` when the loop runs out. -/
def fine_scan (est : ℕ → ℤ) (nonChat T : ℤ) (i stepEnd : ℕ) : ℕ :=
  fine_scan_go est nonChat T i (stepEnd - i)

/-- The batch-advancement `while` loop of `calculate_truncation_index`
(src/index.js:903-935).  `cur` is `currentChatSize`, `next` is
`nextIndex`.  The JS loop terminates because `nextIndex` grows by at
least one per iteration when `batchSize > 0`; the embedding makes this
explicit with a fuel argument (callers pass `maxIdx + 1`, which the
lemmas below show is enough fuel whenever `0 < batch`). -/
def trunc_loop (est : ℕ → ℤ) (nonChat T : ℤ) (batch maxIdx : ℕ) :
    ℤ → ℕ → ℕ → ℕ
  | _, next, 0 => next
  | cur, next, fuel + 1 =>
      if T < cur + nonChat ∧ next < maxIdx then
        let stepEnd := if 0 < batch then min (next + batch) maxIdx else next
        let cand := est stepEnd
        if cand + nonChat ≤ T then fine_scan est nonChat T next stepEnd
        else trunc_loop est nonChat T batch maxIdx cand stepEnd fuel
      else next

/-- Target-size adjustment for retrieved-memory tokens
(src/index.js:761-768): when Qdrant accounting is on and the current
injection is positive, the target shrinks by the injection size. -/
def effective_target (target qdrantTokens : ℤ) (qdrantEnabled accountQdrant : Bool) : ℤ :=
  if qdrantEnabled ∧ accountQdrant ∧ 0 < qdrantTokens then target - qdrantTokens
  else target

/-- The `nonChatBudget` computation (src/index.js:820-841): with no raw prompt
available, 15% of the current prompt size (`Math.floor`); with a raw
prompt of `tot` total tokens of which `chatTok` are chat segments,
`Math.max(tot - chatTok, 0)`. -/
def non_chat_budget (currentPromptSize : ℕ) (raw : Option (ℕ × ℕ)) : ℤ :=
  match raw with
  | none => ⌊(currentPromptSize : ℚ) * (15 / 100)⌋
  | some (tot, chatTok) => max ((tot : ℤ) - chatTok) 0

/-- Static inputs of one truncation pass: the chat (as seen by the
estimator), the settings and the host-supplied measurements that
`calculate_truncation_index` reads. -/
structure TruncEnv where
  chat : List CtMsg
  sepSize : ℕ
  target : ℤ
  qdrantTokens : ℤ
  qdrantEnabled : Bool
  accountQdrant : Bool
  currentPromptSize : ℕ
  raw : Option (ℕ × ℕ)
  batch : ℕ
  minKeep : ℕ
deriving DecidableEq, Repr

/-- Model of `calculate_truncation_index()` (src/index.js:743-961).
Early exits: no measured context (`CURRENT_CONTEXT_SIZE === 0`) or already
under target return `0`.  Otherwise the cutoff advances from
`min currentIndex maxIndex` in batches (with `maxIndex =
max(chat.length - minKeep, 0)`, which is `ℕ` subtraction here) while the
estimate stays over target, scans the final batch, and the function
returns `Math.max(nextIndex, currentIndex)`. -/
def calculate_truncation_index (env : TruncEnv) (cf : ℚ) (currentIndex : ℕ) : ℕ :=
  let T := effective_target env.target env.qdrantTokens env.qdrantEnabled env.accountQdrant
  if env.currentPromptSize = 0 then 0
  else if (env.currentPromptSize : ℤ) ≤ T then 0
  else
    let maxIdx := env.chat.length - env.minKeep
    let next := min currentIndex maxIdx
    let nonChat := non_chat_budget env.currentPromptSize env.raw
    let est := estimateChatSize env.chat cf env.sepSize
    max (trunc_loop est nonChat T env.batch maxIdx (est currentIndex) next (maxIdx + 1))
    currentIndex

/-- The five phases of the calibration state machine
(src/index.js:149-156). -/
inductive CalPhase where
  | WAITING
  | INITIAL_TRAINING
  | CALIBRATING
  | RETRAINING
  | STABLE
deriving DecidableEq, Repr

/-- The per-conversation mutable module state touched by the deletion
handler and the calibration machine: `TRUNCATION_INDEX` (`none` = JS
`null`), `CHAT_TOKEN_CORRECTION_FACTOR`, the target-size setting, the
calibration phase and its counters, and the deletion-tracking snapshot
(`LAST_CHAT_LENGTH`, `LAST_CHAT_HASHES`). -/
structure ModState where
  trunc : Option ℕ
  cf : ℚ
  target : ℤ
  phase : CalPhase
  genCount : ℕ
  stableCount : ℕ
  retrainCount : ℕ
  deletionCount : ℕ
  lastChatLength : ℕ
  lastChatHashes : List (ℕ × ℕ)
deriving DecidableEq, Repr

/-- Model of `compute_message_hash` (src/index.js:530-533): `null` when the
message text is absent/empty.  A message is modelled by its
`getStringHash` value, with `0` standing for the falsy case. -/
def compute_message_hash (h : ℕ) : Option ℕ :=
  if h = 0 then none else some h

/-- Model of `snapshot_chat_state` (src/index.js:536-557): record the chat length
and the (truthy) per-index hashes. -/
def snapshot_chat_state (chat : List ℕ) (s : ModState) : ModState :=
  { s with
    lastChatLength := chat.length
    lastChatHashes :=
      (chat.enum.filterMap fun p =>
        (compute_message_hash p.2).map fun h => (p.1, h)) }

/-- Model of `trigger_soft_recalibration` (src/index.js:641-663): from `STABLE` or
`CALIBRATING`, drop back to `CALIBRATING` and zero the stable and
deletion counters; from `RETRAINING` only zero the deletion counter;
`WAITING` / `INITIAL_TRAINING` are left alone. -/
def trigger_soft_recalibration (s : ModState) : ModState :=
  if s.phase = CalPhase.STABLE ∨ s.phase = CalPhase.CALIBRATING then
    { s with phase := CalPhase.CALIBRATING, stableCount := 0, deletionCount := 0 }
  else if s.phase = CalPhase.RETRAINING then
    { s with deletionCount := 0 }
  else s

/-- The constant `DELETION_TOLERANCE` (src/index.js:166). -/
def DELETION_TOLERANCE : ℕ := 3

/-- Model of `handle_message_deleted` (src/index.js:560-638) on the new chat
(given as the list of message hash values).  When the chat shrank:
with a set, positive cutoff, compare the snapshot hash at the cutoff
with the current one — cutoff beyond the new length clamps it to
`length - 1`, a hash mismatch shifts it back by the deleted count
(clamped at 0), an intact anchor leaves it untouched; impactful
deletions raise `DELETION_COUNT`, and reaching `DELETION_TOLERANCE`
triggers the soft recalibration; finally the snapshot is refreshed. -/
def handle_message_deleted (chat : List ℕ) (s : ModState) : ModState :=
  let currentLength := chat.length
  if s.lastChatLength ≤ currentLength then
    { s with lastChatLength := currentLength }
  else
    let deletedCount := s.lastChatLength - currentLength
    let step :=
      match s.trunc with
      | some t =>
        if 0 < t then
          let oldHash := (s.lastChatHashes.lookup t)
          let newHash := (chat.get? t).bind compute_message_hash
          if currentLength ≤ t then
            ({ s with trunc := some (currentLength - 1) }, deletedCount)
          else if oldHash.isSome ∧ newHash.isSome ∧ oldHash ≠ newHash then
            ({ s with trunc := some (t - deletedCount) }, deletedCount)
          else (s, 0)
        else (s, 0)
      | none => (s, 0)
    let s1 := step.1
    let s2 :=
      if 0 < step.2 then { s1 with deletionCount := s1.deletionCount + step.2 } else s1
    let s3 :=
      if DELETION_TOLERANCE ≤ s2.deletionCount then trigger_soft_recalibration s2 else s2
    snapshot_chat_state chat s3

/-- The clamped, dampened candidate target computed by
`calculate_calibrated_target` (src/index.js:1455-1487):
`idealTarget = ⌊maxContext·targetUtilization⌋`, a Qdrant-token average
subtracted when accounting is on, divided by the correction factor,
dampened 70% toward from the current target, clamped to
`[⌊0.3·maxContext⌋, ⌊0.95·maxContext⌋]`. -/
def calibrated_final_target (maxContext : ℕ) (targetUtilization : ℚ)
    (qdrantOn : Bool) (avgQdrant : ℤ) (cf : ℚ) (currentTarget : ℤ) : ℤ :=
  let idealTarget : ℤ := ⌊(maxContext : ℚ) * targetUtilization⌋
  let qdrantAdjustment : ℤ := if qdrantOn then avgQdrant else 0
  let rawAdjustedTarget : ℤ := ⌊((idealTarget - qdrantAdjustment : ℤ) : ℚ) / cf⌋
  let adjustedTarget : ℤ :=
    ⌊(currentTarget : ℚ) + ((rawAdjustedTarget - currentTarget : ℤ) : ℚ) * (7 / 10)⌋
  let minTarget : ℤ := ⌊(maxContext : ℚ) * (3 / 10)⌋
  let maxTarget : ℤ := ⌊(maxContext : ℚ) * (95 / 100)⌋
  max minTarget (min maxTarget adjustedTarget)

/-- Model of `calculate_calibrated_target` (src/index.js:1455-1503): the candidate
target is applied only when it differs from the current target by more
than 5% (`changePct > 0.05`); applying it stores the new target and runs
`reset_truncation_index()` (src/index.js:518-525), which nulls the cutoff
and deliberately leaves the correction factor alone. -/
def calculate_calibrated_target (maxContext : ℕ) (targetUtilization : ℚ)
    (qdrantOn : Bool) (avgQdrant : ℤ) (s : ModState) : ModState :=
  let finalTarget := calibrated_final_target maxContext targetUtilization
    qdrantOn avgQdrant s.cf s.target
  let changePct : ℚ := |((finalTarget - s.target : ℤ) : ℚ)| / (s.target : ℚ)
  if 5 / 100 < changePct then
    { s with target := finalTarget, trunc := none }
  else s

/-- The constant `TRAINING_GENERATIONS` (src/index.js:155). -/
def TRAINING_GENERATIONS : ℕ := 2

/-- The constant `STABLE_THRESHOLD` (src/index.js:156). -/
def STABLE_THRESHOLD : ℕ := 5

/-- Utilization deviation computed by `calibrate_target_size`
(src/index.js:1336-1337): `|actualSize / maxContext - targetUtilization|`. -/
def deviation_of (maxContext : ℕ) (targetUtilization : ℚ) (actualSize : ℕ) : ℚ :=
  |(actualSize : ℚ) / (maxContext : ℚ) - targetUtilization|

/-- The calibration state machine step `calibrate_target_size(actualSize)`
(src/index.js:1316-1452).  `tolerance` is the value of
`get_dynamic_tolerance()`; `autoCalibrate` is the
`auto_calibrate_target` setting (the start threshold depends on it). -/
def calibrate_target_size (maxContext : ℕ) (targetUtilization tolerance : ℚ)
    (autoCalibrate qdrantOn : Bool) (avgQdrant : ℤ) (actualSize : ℕ)
    (s : ModState) : ModState :=
  let startThreshold : ℤ :=
    if autoCalibrate then ⌊(maxContext : ℚ) * targetUtilization⌋ else s.target
  let deviation := deviation_of maxContext targetUtilization actualSize
  match s.phase with
  | CalPhase.WAITING =>
      if (actualSize : ℤ) < startThreshold then s
      else { s with phase := CalPhase.INITIAL_TRAINING, genCount := 0 }
  | CalPhase.INITIAL_TRAINING =>
      let g := s.genCount + 1
      if TRAINING_GENERATIONS ≤ g then
        calculate_calibrated_target maxContext targetUtilization qdrantOn avgQdrant
          { s with phase := CalPhase.CALIBRATING, genCount := 0 }
      else { s with genCount := g }
  | CalPhase.CALIBRATING =>
      if deviation ≤ tolerance then
        let st := s.stableCount + 1
        if STABLE_THRESHOLD ≤ st then
          { s with phase := CalPhase.STABLE, stableCount := st, deletionCount := 0 }
        else { s with stableCount := st }
      else
        let decayAmount := if tolerance * (3 / 2) < deviation then 2 else 1
        calculate_calibrated_target maxContext targetUtilization qdrantOn avgQdrant
          { s with stableCount := s.stableCount - decayAmount }
  | CalPhase.RETRAINING =>
      let rc := s.retrainCount + 1
      if TRAINING_GENERATIONS ≤ rc then
        calculate_calibrated_target maxContext targetUtilization qdrantOn avgQdrant
          { s with phase := CalPhase.CALIBRATING, retrainCount := 0, stableCount := 0 }
      else { s with retrainCount := rc }
  | CalPhase.STABLE =>
      if tolerance * (3 / 2) < deviation then
        { s with phase := CalPhase.RETRAINING, retrainCount := 0, stableCount := 0 }
      else s

/-- The adaptive EMA update of the correction factor in
`update_status_display` (src/index.js:1221-1232): given the freshly
measured ratio `newCorrectionFactor = actualChatTokens /
LAST_PREDICTED_CHAT_SIZE` and the old factor, the smoothing weight is
`min(0.15 + |new - old|·0.5, 0.4)` and the result is
`α·new + (1-α)·old`. -/
def ema_step (old ratio : ℚ) : ℚ :=
  let errorMagnitude := |ratio - old|
  let baseAlpha : ℚ := 15 / 100
  let maxAlpha : ℚ := 4 / 10
  let adaptiveAlpha := min (baseAlpha + errorMagnitude * (5 / 10)) maxAlpha
  adaptiveAlpha * ratio + (1 - adaptiveAlpha) * old

/-- The state slice read and written by the eviction decision
`update_message_inclusion_flags` (src/index.js:986-1023): the in-memory
`TRUNCATION_INDEX` and `CHAT_TOKEN_CORRECTION_FACTOR`, and the persisted
`chat_metadata[MODULE_NAME]` record, whose fields may each be absent
(JS `undefined`, outer `Option`); the saved truncation index itself may
be the JS `null` (inner `Option`).  The calibration fields that
`save_truncation_index` also persists do not feed back into the cutoff
computation and are omitted from this slice. -/
structure FlagsState where
  trunc : Option ℕ
  cf : ℚ
  metaTrunc : Option (Option ℕ)
  metaTarget : Option ℤ
  metaCf : Option ℚ
deriving DecidableEq, Repr

/-- Model of `load_truncation_index` (src/index.js:462-496), restricted to the
fields of `FlagsState`: copy the saved truncation index and correction
factor into the live state when they are defined. -/
def load_truncation_index (s : FlagsState) : FlagsState :=
  let s1 := match s.metaTrunc with
    | some v => { s with trunc := v }
    | none => s
  match s1.metaCf with
  | some c => { s1 with cf := c }
  | none => s1

/-- Model of `save_truncation_index` (src/index.js:498-516), restricted to the
fields of `FlagsState`: persist the live truncation index, the current
target-size setting and the live correction factor. -/
def save_truncation_index (targetSetting : ℤ) (s : FlagsState) : FlagsState :=
  { s with metaTrunc := some s.trunc, metaTarget := some targetSetting,
           metaCf := some s.cf }

/-- Model of `should_recalculate_truncation` (src/index.js:717-739): recalculate
when the saved target size differs from the current setting, or when the
live correction factor drifted more than 5% from the saved one.  The JS
percentage test `(|cf - saved| / saved) * 100 > 5` evaluates, when
`saved = 0`, to `Infinity > 5` (true) for `cf ≠ 0` and `NaN > 5` (false)
for `cf = 0`; the zero case is split out to keep those semantics. -/
def should_recalculate_truncation (targetSetting : ℤ) (s : FlagsState) : Bool :=
  (match s.metaTarget with
    | some t => decide (t ≠ targetSetting)
    | none => false)
  || (match s.metaCf with
    | some c =>
        if c = 0 then decide (s.cf ≠ 0)
        else decide ((5 : ℚ) < |s.cf - c| / c * 100)
    | none => false)

/-- Model of `update_message_inclusion_flags` (src/index.js:986-1023), the
once-per-generation eviction decision: load the index when it is `null`,
null it again when `should_recalculate_truncation` fires, recompute it
via `calculate_truncation_index` when it is `null` or `0` (JS
`TRUNCATION_INDEX || 0` maps both to a starting index of `0`) and persist
the result.  The per-message `lagging` flags it also writes are derived
data and not part of the state slice. -/
def update_message_inclusion_flags (env : TruncEnv) (s : FlagsState) : FlagsState :=
  let s1 := if s.trunc = none then load_truncation_index s else s
  let s2 := if should_recalculate_truncation env.target s1 then
      { s1 with trunc := none }
    else s1
  if s2.trunc = none ∨ s2.trunc = some 0 then
    let r := calculate_truncation_index env s2.cf (s2.trunc.getD 0)
    save_truncation_index env.target { s2 with trunc := some r }
  else s2

/-- Annotation bag of a message as touched by the summarization queue:
whether a `memory` (summary) is stored, the `needs_summary` flag, and
whether the message is a system message (skipped by
`summarize_message`). -/
structure SMsg where
  hasSummary : Bool
  needs_summary : Bool
  is_system : Bool
deriving DecidableEq, Repr

/-- The observable state of the `SummaryQueue` instance
(src/index.js:2534-2848) together with the chat annotations it writes. -/
structure QState where
  queue : List ℕ
  active : Bool
  stopped : Bool
  msgs : List SMsg
deriving DecidableEq, Repr

/-- Model of `SummaryQueue.stop()` (src/index.js:2562-2580): a no-op when idle;
otherwise set the `stopped` flag, clear the queue and abort the in-flight
generation call. -/
def SummaryQueue.stop (q : QState) : QState :=
  if q.active then { q with stopped := true, queue := [] } else q

/-- Model of `SummaryQueue.summarize_message(index)` (src/index.js:2712-2847) with
the external generation call abstracted: `stopHere` injects a
`stop()` arriving while this item's generation is in flight.  Missing or
system messages are skipped; a set `stopped` flag at entry skips the
item; a stop during generation leaves the message without a summary and
with `needs_summary` untouched (both the post-generation `this.stopped`
check and the `AbortError` catch take this path); otherwise the summary
is stored and `needs_summary` cleared. -/
def SummaryQueue.summarize_message (stopHere : Bool) (q : QState) (index : ℕ) :
    QState :=
  match q.msgs.get? index with
  | none => q
  | some m =>
    if m.is_system then q
    else if q.stopped then q
    else
      let q1 := if stopHere then SummaryQueue.stop { q with active := true } else q
      if q1.stopped then q1
      else
        { q1 with msgs :=
            q1.msgs.set index { m with hasSummary := true, needs_summary := false } }

/-- The `while` loop of `SummaryQueue.process()` (src/index.js:2619-2626):
dequeue and summarize while the queue is non-empty and no stop was
requested.  `stopDuring = some k` means `stop()` arrives while the k-th
dequeued item (0-based) is in flight.  The queue length bounds the
number of iterations (stopping only shrinks the queue), so it serves as
fuel. -/
def SummaryQueue.process_aux (stopDuring : Option ℕ) :
    ℕ → ℕ → QState → QState
  | 0, _, q => { q with active := false, stopped := false }
  | fuel + 1, k, q =>
    match q.queue with
    | [] => { q with active := false, stopped := false }
    | index :: rest =>
      if q.stopped then { q with active := false, stopped := false }
      else
        SummaryQueue.process_aux stopDuring fuel (k + 1)
          (SummaryQueue.summarize_message (stopDuring = some k)
            { q with queue := rest } index)

/-- Model of `SummaryQueue.process()` (src/index.js:2612-2637): mark the worker
active, run the loop, then clear `active` and `stopped`. -/
def SummaryQueue.process (stopDuring : Option ℕ) (q : QState) : QState :=
  SummaryQueue.process_aux stopDuring q.queue.length 0 { q with active := true }

/-- Model of `SummaryQueue.summarize(indexes)` (src/index.js:2542-2560): reset the
`stopped` flag, append the indices, and start processing when idle. -/
def SummaryQueue.summarize (stopDuring : Option ℕ) (indexes : List ℕ)
    (q : QState) : QState :=
  let q1 := { q with stopped := false, queue := q.queue ++ indexes }
  if q1.active then q1 else SummaryQueue.process stopDuring q1

/-- A search result from the vector store as consumed by
`detect_duplicates` (src/index.js:4181-4220): its point `id`, its
`payload.message_hash` (`none` for the old chunked format without a
hash) and its `payload.timestamp`. -/
structure MemRecord where
  id : ℕ
  hash : Option ℕ
  timestamp : ℕ
deriving DecidableEq, Repr

/-- JS truthiness of `result.payload.message_hash`: absent or zero hashes
take the `!hash` early path of `detect_duplicates`. -/
def MemRecord.hashTruthy (r : MemRecord) : Bool :=
  match r.hash with
  | none => false
  | some h => decide (h ≠ 0)

/-- The assignment `uniqueResults[idx] = result` after
`idx = uniqueResults.indexOf(existing.result)`
(src/index.js:4206-4209): replace the first occurrence of `old`, leave
the list unchanged when it is absent (`idx < 0`). -/
def replaceFirst (old new_ : MemRecord) : List MemRecord → List MemRecord
  | [] => []
  | x :: xs => if x = old then new_ :: xs else x :: replaceFirst old new_ xs

/-- The `seenHashes.set(hash, ...)` overwrite semantics on the association
list modelling the JS `Map`. -/
def setAssoc (h : ℕ) (r : MemRecord) : List (ℕ × MemRecord) → List (ℕ × MemRecord)
  | [] => [(h, r)]
  | (h', r') :: rest =>
      if h' = h then (h, r) :: rest else (h', r') :: setAssoc h r rest

/-- The scan loop of `detect_duplicates` (src/index.js:4186-4217):
results without a (truthy) hash are kept unconditionally; on a hash
collision the copy with the strictly larger timestamp is marked for
deletion and the other one stays in `uniqueResults` (the map entry and
the kept slot are swapped to the current result when it is not newer
than the stored one). -/
def detect_duplicates_aux (seen : List (ℕ × MemRecord)) (uniq : List MemRecord)
    (dups : List ℕ) : List MemRecord → List MemRecord × List ℕ
  | [] => (uniq, dups)
  | r :: rest =>
    if ¬ r.hashTruthy then
      detect_duplicates_aux seen (uniq ++ [r]) dups rest
    else
      let h := r.hash.getD 0
      match seen.lookup h with
      | some existing =>
        if existing.timestamp < r.timestamp then
          detect_duplicates_aux seen uniq (dups ++ [r.id]) rest
        else
          detect_duplicates_aux (setAssoc h r seen)
            (replaceFirst existing r uniq) (dups ++ [existing.id]) rest
      | none =>
        detect_duplicates_aux (setAssoc h r seen) (uniq ++ [r]) dups rest

/-- Model of `detect_duplicates(results)` (src/index.js:4181-4220): returns the
deduplicated `uniqueResults` and the `duplicateIds` that
`search_memories` (src/index.js:3961-3974) then deletes from the vector
store. -/
def detect_duplicates (results : List MemRecord) : List MemRecord × List ℕ :=
  detect_duplicates_aux [] [] [] results

/-- A concrete uniform-stream environment used to evaluate the theorems
below on a sample input: 30 identical 100-token messages, target 2000,
batch 7, keep the last 10, prompt measured at 3200 tokens with a fully
chat-composed raw prompt. -/
def uniformEnv : TruncEnv :=
  { chat := List.replicate 30 ⟨100, false, none, true⟩, sepSize := 0,
    target := 2000, qdrantTokens := 0, qdrantEnabled := false,
    accountQdrant := false, currentPromptSize := 3200,
    raw := some (3500, 3500), batch := 7, minKeep := 10 }

/-- A concrete pre-deletion module state used by the deletion-handler
theorems: 20 messages hashed `i ↦ i + 1`, cutoff at 15. -/
def delState20 : ModState :=
  { trunc := some 15, cf := 1, target := 8000, phase := CalPhase.WAITING,
    genCount := 0, stableCount := 0, retrainCount := 0, deletionCount := 0,
    lastChatLength := 20,
    lastChatHashes := (List.range 20).map (fun i => (i, i + 1)) }

/-- A concrete pre-deletion module state with 10 messages hashed
`i ↦ i + 1` and the cutoff at 8. -/
def delState10 : ModState :=
  { trunc := some 8, cf := 1, target := 8000, phase := CalPhase.WAITING,
    genCount := 0, stableCount := 0, retrainCount := 0, deletionCount := 0,
    lastChatLength := 10,
    lastChatHashes := (List.range 10).map (fun i => (i, i + 1)) }

/-- A concrete mid-calibration module state: phase CALIBRATING with four
consecutive stable generations. -/
def calibState4 : ModState :=
  { trunc := some 12, cf := 1, target := 8000, phase := CalPhase.CALIBRATING,
    genCount := 0, stableCount := 4, retrainCount := 0, deletionCount := 0,
    lastChatLength := 0, lastChatHashes := [] }

/-! ## Loop lemmas for the batch-advancement code -/

theorem fine_scan_go_ge (est : ℕ → ℤ) (nonChat T : ℤ) :
    ∀ rem i, i ≤ fine_scan_go est nonChat T i rem := by
  intro rem
  induction rem with
  | zero => intro i; simp [fine_scan_go]
  | succ rem ih =>
      intro i
      simp only [fine_scan_go]
      split
      · omega
      · exact le_trans (by omega) (ih (i + 1))

theorem fine_scan_go_le (est : ℕ → ℤ) (nonChat T : ℤ) :
    ∀ rem i, fine_scan_go est nonChat T i rem ≤ i + rem := by
  intro rem
  induction rem with
  | zero => intro i; simp [fine_scan_go]
  | succ rem ih =>
      intro i
      simp only [fine_scan_go]
      split
      · omega
      · exact le_trans (ih (i + 1)) (by omega)

theorem fine_scan_go_spec (est : ℕ → ℤ) (nonChat T : ℤ) :
    ∀ rem i, 0 < rem → est (i + rem) + nonChat ≤ T →
      i < fine_scan_go est nonChat T i rem ∧
      est (fine_scan_go est nonChat T i rem) + nonChat ≤ T ∧
      (∀ j, i < j → j < fine_scan_go est nonChat T i rem →
        ¬ est j + nonChat ≤ T) := by
  intro rem
  induction rem with
  | zero => intro i h; omega
  | succ rem ih =>
      intro i _ hend
      simp only [fine_scan_go]
      by_cases h1 : est (i + 1) + nonChat ≤ T
      · simp only [if_pos h1]
        exact ⟨by omega, h1, fun j hj1 hj2 => by omega⟩
      · simp only [if_neg h1]
        rcases Nat.eq_zero_or_pos rem with hr | hr
        · subst hr
          simp only [fine_scan_go]
          refine ⟨by omega, ?_, fun j hj1 hj2 => by omega⟩
          have : i + 1 = i + (0 + 1) := by omega
          rw [this]; exact hend
        · have hend' : est ((i + 1) + rem) + nonChat ≤ T := by
            have : (i + 1) + rem = i + (rem + 1) := by omega
            rw [this]; exact hend
          obtain ⟨h2, h3, h4⟩ := ih (i + 1) hr hend'
          refine ⟨by omega, h3, fun j hj1 hj2 => ?_⟩
          rcases Nat.lt_or_ge i.succ j with hj | hj
          · exact h4 j hj hj2
          · have : j = i + 1 := by omega
            rw [this]; exact h1

theorem trunc_loop_ge (est : ℕ → ℤ) (nonChat T : ℤ) (batch maxIdx : ℕ) :
    ∀ fuel cur next, next ≤ trunc_loop est nonChat T batch maxIdx cur next fuel := by
  intro fuel
  induction fuel with
  | zero => intro cur next; simp [trunc_loop]
  | succ fuel ih =>
      intro cur next
      simp only [trunc_loop]
      split
      · rename_i hcond
        obtain ⟨hc1, hc2⟩ := hcond
        split <;> rename_i hb
        · split
          · simp only [fine_scan]
            exact fine_scan_go_ge est nonChat T _ next
          · exact le_trans (show next ≤ min (next + batch) maxIdx by omega) (ih _ _)
        · split
          · simp [fine_scan, fine_scan_go]
          · exact ih _ _
      · exact le_refl _

theorem trunc_loop_le (est : ℕ → ℤ) (nonChat T : ℤ) (batch maxIdx : ℕ) :
    ∀ fuel cur next, next ≤ maxIdx →
      trunc_loop est nonChat T batch maxIdx cur next fuel ≤ maxIdx := by
  intro fuel
  induction fuel with
  | zero => intro cur next h; simpa [trunc_loop] using h
  | succ fuel ih =>
      intro cur next h
      simp only [trunc_loop]
      split
      · rename_i hcond
        obtain ⟨hc1, hc2⟩ := hcond
        split <;> rename_i hb
        · split
          · simp only [fine_scan]
            have h1 := fine_scan_go_le est nonChat T (min (next + batch) maxIdx - next) next
            omega
          · exact ih _ _ (by omega)
        · split
          · simp only [fine_scan]
            have h1 := fine_scan_go_le est nonChat T (next - next) next
            omega
          · exact ih _ _ h
      · exact h

/-- Core specification of the batch-advancement loop: started over
target, with enough fuel and a positive batch size, it either runs into
the floor `maxIdx` or stops at a cutoff whose estimate is at or under
target while the estimate one message earlier is still over target. -/
theorem trunc_loop_spec (est : ℕ → ℤ) (nonChat T : ℤ) (batch maxIdx : ℕ)
    (hb : 0 < batch) :
    ∀ fuel next, next ≤ maxIdx → maxIdx - next < fuel →
      ¬ est next + nonChat ≤ T →
      trunc_loop est nonChat T batch maxIdx (est next) next fuel = maxIdx ∨
      (est (trunc_loop est nonChat T batch maxIdx (est next) next fuel) + nonChat ≤ T ∧
       0 < trunc_loop est nonChat T batch maxIdx (est next) next fuel ∧
       ¬ est (trunc_loop est nonChat T batch maxIdx (est next) next fuel - 1)
            + nonChat ≤ T) := by
  intro fuel
  induction fuel with
  | zero => intro next hle hfuel hnP; omega
  | succ fuel ih =>
      intro next hle hfuel hnP
      simp only [trunc_loop]
      split
      · rename_i hcond
        obtain ⟨hT, hlt⟩ := hcond
        split
        · rename_i hstepOk
          right
          simp only [fine_scan]
          have hrem : 0 < min (next + batch) maxIdx - next := by omega
          have hend : est (next + (min (next + batch) maxIdx - next)) + nonChat ≤ T := by
            have harg : next + (min (next + batch) maxIdx - next)
                = min (next + batch) maxIdx := by omega
            rw [harg]; exact hstepOk
          obtain ⟨hgt, hP, hmin⟩ := fine_scan_go_spec est nonChat T _ next hrem hend
          refine ⟨hP, by omega, ?_⟩
          rcases Nat.lt_or_ge next
              (fine_scan_go est nonChat T next (min (next + batch) maxIdx - next) - 1)
            with hc | hc
          · exact hmin _ hc (by omega)
          · have heq : fine_scan_go est nonChat T next
                (min (next + batch) maxIdx - next) - 1 = next := by omega
            rw [heq]; exact hnP
        · rename_i hstepNo
          exact ih _ (by omega) (by omega) hstepNo
      · rename_i hcond
        left
        have hT : T < est next + nonChat := not_le.mp hnP
        have hnl : ¬ next < maxIdx := fun hlt => hcond ⟨hT, hlt⟩
        omega

/-- On a uniform stream (`n` copies of one non-system message without a
summary) the estimator is linear: each of the `j` replicated messages at
positions `i, …, i+j-1` contributes the corrected cost
`⌊rawTokens · cf⌋` exactly when its position is at or past the cutoff. -/
theorem estimateChatSizeAux_replicate (cf : ℚ) (sep start : ℕ) (m : CtMsg)
    (hsys : m.is_system = false) (hmem : m.memory = none) :
    ∀ j i, estimateChatSizeAux cf sep start i (List.replicate j m) =
      (((i + j) - max i start : ℕ) : ℤ) * ⌊(m.rawTokens : ℚ) * cf⌋ := by
  intro j
  induction j with
  | zero =>
      intro i
      simp [estimateChatSizeAux, Nat.sub_eq_zero_of_le (Nat.le_max_left i start)]
  | succ j ih =>
      intro i
      rw [List.replicate_succ]
      simp only [estimateChatSizeAux, ih (i + 1)]
      have hc : message_contrib cf sep start i m
          = if start ≤ i then ⌊(m.rawTokens : ℚ) * cf⌋ else 0 := by
        simp [message_contrib, hsys, hmem]
      rw [hc]
      rcases Nat.lt_or_ge i start with hlt | hge
      · rw [if_neg (by omega)]
        have h1 : ((i + 1 + j) - max (i + 1) start : ℕ)
            = ((i + (j + 1)) - max i start : ℕ) := by omega
        rw [h1]; ring
      · rw [if_pos hge]
        have h1 : ((i + 1 + j) - max (i + 1) start : ℕ) = j := by omega
        have h2 : ((i + (j + 1)) - max i start : ℕ) = j + 1 := by omega
        rw [h1, h2]
        push_cast; ring

theorem estimateChatSize_replicate (cf : ℚ) (sep : ℕ) (m : CtMsg) (n k : ℕ)
    (hsys : m.is_system = false) (hmem : m.memory = none) :
    estimateChatSize (List.replicate n m) cf sep k =
      ((n - k : ℕ) : ℤ) * ⌊(m.rawTokens : ℚ) * cf⌋ := by
  have h := estimateChatSizeAux_replicate cf sep k m hsys hmem n 0
  simpa [estimateChatSize] using h

/-- Over target (and with a measured context size), the early exits of
`calculate_truncation_index` do not fire and the result is the maximum of
the batch-scan result and the starting index. -/
theorem calculate_truncation_index_over (env : TruncEnv) (cf : ℚ)
    (currentIndex : ℕ) (hps : env.currentPromptSize ≠ 0)
    (hover : effective_target env.target env.qdrantTokens env.qdrantEnabled
        env.accountQdrant < (env.currentPromptSize : ℤ)) :
    calculate_truncation_index env cf currentIndex =
      max (trunc_loop (estimateChatSize env.chat cf env.sepSize)
            (non_chat_budget env.currentPromptSize env.raw)
            (effective_target env.target env.qdrantTokens env.qdrantEnabled
              env.accountQdrant)
            env.batch (env.chat.length - env.minKeep)
            (estimateChatSize env.chat cf env.sepSize currentIndex)
            (min currentIndex (env.chat.length - env.minKeep))
            (env.chat.length - env.minKeep + 1))
        currentIndex := by
  have h2 : ¬ ((env.currentPromptSize : ℤ) ≤ effective_target env.target
      env.qdrantTokens env.qdrantEnabled env.accountQdrant) := not_le.mpr hover
  simp only [calculate_truncation_index]
  rw [if_neg hps, if_neg h2]

/-- C10: whenever the measured prompt size exceeds the (memory-adjusted)
target, the adaptive eviction computation `calculate_truncation_index`
returns at least the stored cutoff it started from, and its result is
exactly the maximum of the batch-scan result and that starting index —
there is no retraction path in the adaptive controller. -/
theorem c10_monotone_advance (env : TruncEnv) (cf : ℚ) (currentIndex : ℕ)
    (hps : env.currentPromptSize ≠ 0)
    (hover : effective_target env.target env.qdrantTokens env.qdrantEnabled
        env.accountQdrant < (env.currentPromptSize : ℤ)) :
    currentIndex ≤ calculate_truncation_index env cf currentIndex ∧
    calculate_truncation_index env cf currentIndex =
      max (trunc_loop (estimateChatSize env.chat cf env.sepSize)
            (non_chat_budget env.currentPromptSize env.raw)
            (effective_target env.target env.qdrantTokens env.qdrantEnabled
              env.accountQdrant)
            env.batch (env.chat.length - env.minKeep)
            (estimateChatSize env.chat cf env.sepSize currentIndex)
            (min currentIndex (env.chat.length - env.minKeep))
            (env.chat.length - env.minKeep + 1))
        currentIndex := by
  have hcalc := calculate_truncation_index_over env cf currentIndex hps hover
  exact ⟨hcalc ▸ le_max_right _ _, hcalc⟩

/-- C10 witness: a concrete over-target invocation starting from cutoff 3. -/
theorem c10_monotone_advance_witness :
    3 ≤ calculate_truncation_index
      { chat := List.replicate 30 ⟨100, false, none, true⟩, sepSize := 0,
        target := 2000, qdrantTokens := 0, qdrantEnabled := false,
        accountQdrant := false, currentPromptSize := 3200,
        raw := some (3500, 3500), batch := 7, minKeep := 10 } 1 3 :=
  (c10_monotone_advance _ 1 3 (by decide) (by decide)).1

/-- C2: on a uniform message stream (every message costs the same
corrected amount `⌊rawTokens·cf⌋`), an eviction pass that starts over
target either runs into the hard floor `len - minKeep`, or ends with an
estimated total at or under the target that would go back over target if
one fewer message were evicted (the fine-grained scan picks the smallest
sufficient cutoff). -/
theorem c2_budget_convergence (env : TruncEnv) (cf : ℚ) (m : CtMsg)
    (n currentIndex : ℕ)
    (hchat : env.chat = List.replicate n m)
    (hsys : m.is_system = false) (hmem : m.memory = none)
    (hb : 0 < env.batch)
    (hps : env.currentPromptSize ≠ 0)
    (hover : effective_target env.target env.qdrantTokens env.qdrantEnabled
        env.accountQdrant < (env.currentPromptSize : ℤ))
    (hci : currentIndex ≤ n - env.minKeep)
    (hstart : effective_target env.target env.qdrantTokens env.qdrantEnabled
        env.accountQdrant
      < estimateChatSize env.chat cf env.sepSize currentIndex
        + non_chat_budget env.currentPromptSize env.raw) :
    calculate_truncation_index env cf currentIndex = n - env.minKeep ∨
    (estimateChatSize env.chat cf env.sepSize
        (calculate_truncation_index env cf currentIndex)
        + non_chat_budget env.currentPromptSize env.raw
      ≤ effective_target env.target env.qdrantTokens env.qdrantEnabled
          env.accountQdrant ∧
     effective_target env.target env.qdrantTokens env.qdrantEnabled
         env.accountQdrant
      < estimateChatSize env.chat cf env.sepSize
          (calculate_truncation_index env cf currentIndex)
        + non_chat_budget env.currentPromptSize env.raw
        + ⌊(m.rawTokens : ℚ) * cf⌋) := by
  have hcalc := calculate_truncation_index_over env cf currentIndex hps hover
  have hlen : env.chat.length = n := by rw [hchat]; exact List.length_replicate n m
  have hminci : min currentIndex (env.chat.length - env.minKeep) = currentIndex := by
    omega
  rw [hminci] at hcalc
  have hrepl : ∀ k, estimateChatSize env.chat cf env.sepSize k
      = ((n - k : ℕ) : ℤ) * ⌊(m.rawTokens : ℚ) * cf⌋ := fun k => by
    rw [hchat]; exact estimateChatSize_replicate cf env.sepSize m n k hsys hmem
  have hstart' : ¬ estimateChatSize env.chat cf env.sepSize currentIndex
      + non_chat_budget env.currentPromptSize env.raw
      ≤ effective_target env.target env.qdrantTokens env.qdrantEnabled
          env.accountQdrant := not_le.mpr hstart
  have hspec := trunc_loop_spec (estimateChatSize env.chat cf env.sepSize)
    (non_chat_budget env.currentPromptSize env.raw)
    (effective_target env.target env.qdrantTokens env.qdrantEnabled
      env.accountQdrant)
    env.batch (env.chat.length - env.minKeep) hb
    (env.chat.length - env.minKeep + 1) currentIndex (by omega) (by omega) hstart'
  have hloople := trunc_loop_le (estimateChatSize env.chat cf env.sepSize)
    (non_chat_budget env.currentPromptSize env.raw)
    (effective_target env.target env.qdrantTokens env.qdrantEnabled
      env.accountQdrant)
    env.batch (env.chat.length - env.minKeep)
    (env.chat.length - env.minKeep + 1)
    (estimateChatSize env.chat cf env.sepSize currentIndex) currentIndex (by omega)
  have hloopge := trunc_loop_ge (estimateChatSize env.chat cf env.sepSize)
    (non_chat_budget env.currentPromptSize env.raw)
    (effective_target env.target env.qdrantTokens env.qdrantEnabled
      env.accountQdrant)
    env.batch (env.chat.length - env.minKeep)
    (env.chat.length - env.minKeep + 1)
    (estimateChatSize env.chat cf env.sepSize currentIndex) currentIndex
  rw [max_eq_left hloopge] at hcalc
  rcases hspec with h | ⟨hP, hpos, hPrev⟩
  · left; rw [hcalc, h, hlen]
  · right
    rw [hcalc]
    refine ⟨hP, ?_⟩
    have h1 := not_le.mp hPrev
    have hrn : trunc_loop (estimateChatSize env.chat cf env.sepSize)
        (non_chat_budget env.currentPromptSize env.raw)
        (effective_target env.target env.qdrantTokens env.qdrantEnabled
          env.accountQdrant)
        env.batch (env.chat.length - env.minKeep)
        (estimateChatSize env.chat cf env.sepSize currentIndex) currentIndex
        (env.chat.length - env.minKeep + 1) ≤ n := by omega
    have hsub : ((n - (trunc_loop (estimateChatSize env.chat cf env.sepSize)
        (non_chat_budget env.currentPromptSize env.raw)
        (effective_target env.target env.qdrantTokens env.qdrantEnabled
          env.accountQdrant)
        env.batch (env.chat.length - env.minKeep)
        (estimateChatSize env.chat cf env.sepSize currentIndex) currentIndex
        (env.chat.length - env.minKeep + 1) - 1) : ℕ) : ℤ)
        = ((n - trunc_loop (estimateChatSize env.chat cf env.sepSize)
        (non_chat_budget env.currentPromptSize env.raw)
        (effective_target env.target env.qdrantTokens env.qdrantEnabled
          env.accountQdrant)
        env.batch (env.chat.length - env.minKeep)
        (estimateChatSize env.chat cf env.sepSize currentIndex) currentIndex
        (env.chat.length - env.minKeep + 1) : ℕ) : ℤ) + 1 := by
      omega
    rw [hrepl] at h1
    rw [hrepl]
    rw [hsub] at h1
    linarith [h1]

/-- Evaluation of the estimator on the sample uniform environment. -/
theorem uniformEnv_est (k : ℕ) :
    estimateChatSize uniformEnv.chat 1 uniformEnv.sepSize k
      = ((30 - k : ℕ) : ℤ) * 100 := by
  have h := estimateChatSize_replicate 1 0 (⟨100, false, none, true⟩ : CtMsg) 30 k
    rfl rfl
  simpa [uniformEnv, Int.floor_natCast] using h

/-- C2 witness: on the sample uniform environment, starting from cutoff
0, the conclusion of the budget-convergence theorem holds concretely. -/
theorem c2_budget_convergence_witness :
    calculate_truncation_index uniformEnv 1 0 = 30 - 10 ∨
    (estimateChatSize uniformEnv.chat 1 uniformEnv.sepSize
        (calculate_truncation_index uniformEnv 1 0)
        + non_chat_budget uniformEnv.currentPromptSize uniformEnv.raw
      ≤ effective_target uniformEnv.target uniformEnv.qdrantTokens
          uniformEnv.qdrantEnabled uniformEnv.accountQdrant ∧
     effective_target uniformEnv.target uniformEnv.qdrantTokens
         uniformEnv.qdrantEnabled uniformEnv.accountQdrant
      < estimateChatSize uniformEnv.chat 1 uniformEnv.sepSize
          (calculate_truncation_index uniformEnv 1 0)
        + non_chat_budget uniformEnv.currentPromptSize uniformEnv.raw
        + ⌊((100 : ℕ) : ℚ) * 1⌋) :=
  c2_budget_convergence uniformEnv 1 ⟨100, false, none, true⟩ 30 0 rfl rfl rfl
    (by decide) (by decide) (by decide) (by decide)
    (by rw [uniformEnv_est 0]; decide)

theorem snapshot_chat_state_trunc (chat : List ℕ) (s : ModState) :
    (snapshot_chat_state chat s).trunc = s.trunc := rfl

theorem trigger_soft_recalibration_trunc (s : ModState) :
    (trigger_soft_recalibration s).trunc = s.trunc := by
  unfold trigger_soft_recalibration
  split_ifs <;> rfl

/-- C1 counterexample: with 20 messages, cutoff 15 and
`min_messages_to_keep = 10` the invariant holds (15 ≤ 20 - 10), but
after deleting 3 messages strictly after the cutoff the reconciliation
in `handle_message_deleted` leaves the cutoff at 15 while the floor
shrinks to `17 - 10 = 7`, so `cutoff_index ≤ len(messages) -
min_messages_to_keep` is violated after a deletion reconciliation. -/
theorem c1_floor_counterexample :
    (handle_message_deleted ((List.range 17).map (· + 1)) delState20).trunc
        = some 15 ∧
    ¬ (15 ≤ ((List.range 17).map (· + 1)).length - 10) := by decide

/-- C1 amended: the eviction computation keeps the floor when started
inside it — from a starting cutoff `≤ len - minKeep` the result stays
`≤ len - minKeep` — and the deletion reconciliation guarantees only the
weaker clamp `cutoff ≤ len - 1`; the unrestricted invariant
`cutoff_index ≤ len(messages) - min_messages_to_keep` fails after
deletions strictly behind the floor (see the counterexample). -/
theorem c1_floor_amended :
    (∀ (env : TruncEnv) (cf : ℚ) (currentIndex : ℕ),
      currentIndex ≤ env.chat.length - env.minKeep →
      calculate_truncation_index env cf currentIndex
        ≤ env.chat.length - env.minKeep) ∧
    (∀ (chat : List ℕ) (s : ModState) (t' : ℕ),
      chat.length < s.lastChatLength →
      (handle_message_deleted chat s).trunc = some t' →
      t' ≤ chat.length - 1) := by
  constructor
  · intro env cf currentIndex hci
    simp only [calculate_truncation_index]
    split
    · exact Nat.zero_le _
    · split
      · exact Nat.zero_le _
      · refine max_le ?_ hci
        exact trunc_loop_le _ _ _ _ _ _ _ _ (min_le_right _ _)
  · intro chat s t' hdel hres
    unfold handle_message_deleted at hres
    rw [if_neg (by omega)] at hres
    simp only [snapshot_chat_state_trunc] at hres
    rcases htr : s.trunc with _ | t
    all_goals simp only [htr] at hres
    · simp only [apply_ite ModState.trunc, trigger_soft_recalibration_trunc,
        ite_self, htr] at hres
      exact absurd hres (by simp)
    · by_cases htpos : 0 < t
      · rw [if_pos htpos] at hres
        by_cases hbeyond : chat.length ≤ t
        · rw [if_pos hbeyond] at hres
          simp only [apply_ite ModState.trunc, trigger_soft_recalibration_trunc,
            ite_self] at hres
          have : t' = chat.length - 1 := by
            have := hres
            simp at this
            omega
          omega
        · rw [if_neg hbeyond] at hres
          by_cases hmis : ((s.lastChatHashes.lookup t).isSome
              ∧ (((chat.get? t).bind compute_message_hash)).isSome
              ∧ (s.lastChatHashes.lookup t)
                  ≠ ((chat.get? t).bind compute_message_hash))
          · rw [if_pos hmis] at hres
            simp only [apply_ite ModState.trunc, trigger_soft_recalibration_trunc,
              ite_self] at hres
            simp at hres
            omega
          · rw [if_neg hmis] at hres
            simp only [apply_ite ModState.trunc, trigger_soft_recalibration_trunc,
              ite_self, htr] at hres
            simp at hres
            omega
      · rw [if_neg htpos] at hres
        simp only [apply_ite ModState.trunc, trigger_soft_recalibration_trunc,
          ite_self, htr] at hres
        simp at hres
        omega

/-- C1 witness: both amended parts evaluated at concrete inputs (the
uniform environment with starting cutoff 0; the 20-message state after a
3-message tail deletion). -/
theorem c1_floor_amended_witness :
    calculate_truncation_index uniformEnv 1 0
        ≤ uniformEnv.chat.length - uniformEnv.minKeep ∧
    (15 : ℕ) ≤ ((List.range 17).map (· + 1)).length - 1 :=
  ⟨c1_floor_amended.1 uniformEnv 1 0 (by decide),
   c1_floor_amended.2 ((List.range 17).map (· + 1)) delState20 15
     (by decide) (by decide)⟩

/-- C3 counterexample: from 10 messages with the cutoff at 8, deleting 5
messages at/before the cutoff (the cutoff then exceeds the new history
length 5) makes `handle_message_deleted` clamp the cutoff to
`5 - 1 = 4`, not decrement it by the deleted count to `8 - 5 = 3` as the
claim states. -/
theorem c3_deletion_counterexample :
    (handle_message_deleted ((List.range 5).map (· + 1)) delState10).trunc
        = some 4 ∧
    (handle_message_deleted ((List.range 5).map (· + 1)) delState10).trunc
        ≠ some (8 - (10 - 5)) := by decide

theorem snapshot_chat_state_deletionCount (chat : List ℕ) (s : ModState) :
    (snapshot_chat_state chat s).deletionCount = s.deletionCount := rfl

theorem trigger_soft_recalibration_deletionCount (s : ModState) :
    (trigger_soft_recalibration s).deletionCount =
      if s.phase = CalPhase.STABLE ∨ s.phase = CalPhase.CALIBRATING ∨
          s.phase = CalPhase.RETRAINING
        then 0 else s.deletionCount := by
  cases hp : s.phase <;> simp [trigger_soft_recalibration, hp]

/-- C3 amended: with a set, positive cutoff `t` and a genuine shrink,
`handle_message_deleted` behaves as follows.  (a) With the anchor hash at
the cutoff intact (deletions strictly after the cutoff), the cutoff is
unchanged, and the deletion counter is unchanged provided it was below
the tolerance of 3.  (b) When the cutoff exceeds the new history length
it is clamped to `len - 1` (not shifted by the deleted count).  (c) When
the anchor hash changed, the cutoff drops by exactly the deleted count,
clamped at 0 (`ℕ` subtraction).  (d) In both impactful cases the deletion
counter grows by exactly the deleted count, except that on reaching the
tolerance it is reset to 0 while the calibration phase is CALIBRATING,
STABLE or RETRAINING. -/
theorem c3_deletion_amended (chat : List ℕ) (s : ModState) (t : ℕ)
    (htr : s.trunc = some t) (htpos : 0 < t)
    (hdel : chat.length < s.lastChatLength) :
    (t < chat.length →
      ¬ ((s.lastChatHashes.lookup t).isSome
          ∧ ((chat.get? t).bind compute_message_hash).isSome
          ∧ s.lastChatHashes.lookup t ≠ (chat.get? t).bind compute_message_hash) →
      (handle_message_deleted chat s).trunc = some t ∧
      (s.deletionCount < DELETION_TOLERANCE →
        (handle_message_deleted chat s).deletionCount = s.deletionCount)) ∧
    (chat.length ≤ t →
      (handle_message_deleted chat s).trunc = some (chat.length - 1)) ∧
    (t < chat.length →
      ((s.lastChatHashes.lookup t).isSome
          ∧ ((chat.get? t).bind compute_message_hash).isSome
          ∧ s.lastChatHashes.lookup t ≠ (chat.get? t).bind compute_message_hash) →
      (handle_message_deleted chat s).trunc
        = some (t - (s.lastChatLength - chat.length))) ∧
    ((chat.length ≤ t ∨
        ((s.lastChatHashes.lookup t).isSome
          ∧ ((chat.get? t).bind compute_message_hash).isSome
          ∧ s.lastChatHashes.lookup t ≠ (chat.get? t).bind compute_message_hash)) →
      (s.deletionCount + (s.lastChatLength - chat.length) < DELETION_TOLERANCE →
        (handle_message_deleted chat s).deletionCount
          = s.deletionCount + (s.lastChatLength - chat.length)) ∧
      (DELETION_TOLERANCE ≤ s.deletionCount + (s.lastChatLength - chat.length) →
        ((s.phase = CalPhase.CALIBRATING ∨ s.phase = CalPhase.STABLE ∨
            s.phase = CalPhase.RETRAINING) →
          (handle_message_deleted chat s).deletionCount = 0) ∧
        ((s.phase = CalPhase.WAITING ∨ s.phase = CalPhase.INITIAL_TRAINING) →
          (handle_message_deleted chat s).deletionCount
            = s.deletionCount + (s.lastChatLength - chat.length)))) := by
  have hnotgrow : ¬ s.lastChatLength ≤ chat.length := by omega
  refine ⟨?_, ?_, ?_, ?_⟩
  · intro hlt hnmis
    simp only [handle_message_deleted, htr, if_neg hnotgrow, if_pos htpos,
      if_neg (show ¬ chat.length ≤ t by omega), if_neg hnmis,
      Nat.lt_irrefl, if_neg (show ¬ (0 : ℕ) < 0 by omega),
      snapshot_chat_state_trunc, snapshot_chat_state_deletionCount,
      apply_ite ModState.trunc, apply_ite ModState.deletionCount,
      trigger_soft_recalibration_trunc, ite_self]
    refine ⟨trivial, fun hlttol => ?_⟩
    simp only [if_false, add_zero]
    rw [if_neg (show ¬ DELETION_TOLERANCE ≤ s.deletionCount by omega)]
  · intro hbeyond
    simp only [handle_message_deleted, htr, if_neg hnotgrow, if_pos htpos,
      if_pos hbeyond,
      if_pos (show 0 < s.lastChatLength - chat.length by omega),
      snapshot_chat_state_trunc, apply_ite ModState.trunc,
      trigger_soft_recalibration_trunc, ite_self]
  · intro hlt hmis
    simp only [handle_message_deleted, htr, if_neg hnotgrow, if_pos htpos,
      if_neg (show ¬ chat.length ≤ t by omega), if_pos hmis,
      if_pos (show 0 < s.lastChatLength - chat.length by omega),
      snapshot_chat_state_trunc, apply_ite ModState.trunc,
      trigger_soft_recalibration_trunc, ite_self]
  · intro himp
    have hcnt : (handle_message_deleted chat s).deletionCount =
        if DELETION_TOLERANCE
            ≤ s.deletionCount + (s.lastChatLength - chat.length)
          then (if s.phase = CalPhase.STABLE ∨ s.phase = CalPhase.CALIBRATING ∨
              s.phase = CalPhase.RETRAINING
            then 0 else s.deletionCount + (s.lastChatLength - chat.length))
          else s.deletionCount + (s.lastChatLength - chat.length) := by
      rcases himp with hbeyond | hmis
      · simp only [handle_message_deleted, htr, if_neg hnotgrow, if_pos htpos,
          if_pos hbeyond,
          if_pos (show 0 < s.lastChatLength - chat.length by omega),
          snapshot_chat_state_deletionCount, apply_ite ModState.deletionCount,
          trigger_soft_recalibration_deletionCount]
      · by_cases hbeyond : chat.length ≤ t
        · simp only [handle_message_deleted, htr, if_neg hnotgrow, if_pos htpos,
            if_pos hbeyond,
            if_pos (show 0 < s.lastChatLength - chat.length by omega),
            snapshot_chat_state_deletionCount, apply_ite ModState.deletionCount,
            trigger_soft_recalibration_deletionCount]
        · simp only [handle_message_deleted, htr, if_neg hnotgrow, if_pos htpos,
            if_neg hbeyond, if_pos hmis,
            if_pos (show 0 < s.lastChatLength - chat.length by omega),
            snapshot_chat_state_deletionCount, apply_ite ModState.deletionCount,
            trigger_soft_recalibration_deletionCount]
    rw [hcnt]
    refine ⟨?_, ?_⟩
    · intro hlttol
      rw [if_neg (by omega)]
    · intro hgetol
      rw [if_pos hgetol]
      refine ⟨?_, ?_⟩
      · intro hphase
        rw [if_pos (by tauto)]
      · intro hphase
        rw [if_neg (by rcases hphase with h | h <;> rw [h] <;> simp)]

/-- C3 witness: the amended beyond-length clause evaluated on the
concrete 10-message state after deleting 5 messages. -/
theorem c3_deletion_amended_witness :
    (handle_message_deleted ((List.range 5).map (· + 1)) delState10).trunc
      = some (((List.range 5).map (· + 1)).length - 1) :=
  (c3_deletion_amended ((List.range 5).map (· + 1)) delState10 8 rfl
    (by decide) (by decide)).2.1 (by decide)

/-- C4: calibration hysteresis.  When the computed target differs from
the current one by at most 5% (`20·|Δ| ≤ target`), the stored target and
the cutoff are untouched; when it differs by more than 5%, the target is
replaced and the cutoff reset to `null`; the correction factor is
untouched in both cases. -/
theorem c4_hysteresis (maxContext : ℕ) (targetUtilization : ℚ)
    (qdrantOn : Bool) (avgQdrant : ℤ) (s : ModState) (hpos : 0 < s.target) :
    (20 * |calibrated_final_target maxContext targetUtilization qdrantOn
        avgQdrant s.cf s.target - s.target| ≤ s.target →
      (calculate_calibrated_target maxContext targetUtilization qdrantOn
          avgQdrant s).target = s.target ∧
      (calculate_calibrated_target maxContext targetUtilization qdrantOn
          avgQdrant s).trunc = s.trunc ∧
      (calculate_calibrated_target maxContext targetUtilization qdrantOn
          avgQdrant s).cf = s.cf) ∧
    (s.target < 20 * |calibrated_final_target maxContext targetUtilization
        qdrantOn avgQdrant s.cf s.target - s.target| →
      (calculate_calibrated_target maxContext targetUtilization qdrantOn
          avgQdrant s).target
        = calibrated_final_target maxContext targetUtilization qdrantOn
            avgQdrant s.cf s.target ∧
      (calculate_calibrated_target maxContext targetUtilization qdrantOn
          avgQdrant s).trunc = none ∧
      (calculate_calibrated_target maxContext targetUtilization qdrantOn
          avgQdrant s).cf = s.cf) := by
  have ht : (0 : ℚ) < (s.target : ℚ) := by exact_mod_cast hpos
  have hiff : ((5 : ℚ) / 100
      < |((calibrated_final_target maxContext targetUtilization qdrantOn
          avgQdrant s.cf s.target - s.target : ℤ) : ℚ)| / (s.target : ℚ))
      ↔ s.target < 20 * |calibrated_final_target maxContext targetUtilization
          qdrantOn avgQdrant s.cf s.target - s.target| := by
    rw [lt_div_iff₀ ht, ← Int.cast_abs]
    constructor
    · intro h
      have h20 : ((s.target : ℚ))
          < 20 * ((|calibrated_final_target maxContext targetUtilization
              qdrantOn avgQdrant s.cf s.target - s.target| : ℤ) : ℚ) := by
        linarith
      exact_mod_cast h20
    · intro h
      have h20 : ((s.target : ℚ))
          < 20 * ((|calibrated_final_target maxContext targetUtilization
              qdrantOn avgQdrant s.cf s.target - s.target| : ℤ) : ℚ) := by
        exact_mod_cast h
      linarith
  constructor
  · intro hle
    have hnot : ¬ ((5 : ℚ) / 100
        < |((calibrated_final_target maxContext targetUtilization qdrantOn
            avgQdrant s.cf s.target - s.target : ℤ) : ℚ)| / (s.target : ℚ)) := by
      rw [hiff]; omega
    simp only [calculate_calibrated_target, if_neg hnot]
    exact ⟨trivial, trivial, trivial⟩
  · intro hgt
    have hyes := hiff.mpr hgt
    simp only [calculate_calibrated_target, if_pos hyes]
    exact ⟨trivial, trivial, trivial⟩

/-- C4 witness: with max context 10000, utilization 1, correction factor
1 and current target 2000, the computed target 7600 differs by more than
5%, so the target is stored and the cutoff reset while the correction
factor stays. -/
theorem c4_hysteresis_witness :
    (calculate_calibrated_target 10000 1 false 0 delState10).target
        = calibrated_final_target 10000 1 false 0 delState10.cf
            delState10.target ∧
    (calculate_calibrated_target 10000 1 false 0 delState10).trunc = none ∧
    (calculate_calibrated_target 10000 1 false 0 delState10).cf
        = delState10.cf :=
  (c4_hysteresis 10000 1 false 0 delState10 (by decide)).2
    (by norm_num [calibrated_final_target, delState10])

theorem calculate_calibrated_target_phase (mc : ℕ) (tu : ℚ) (qOn : Bool)
    (avgQ : ℤ) (s : ModState) :
    (calculate_calibrated_target mc tu qOn avgQ s).phase = s.phase := by
  simp only [calculate_calibrated_target, apply_ite ModState.phase, ite_self]

theorem calculate_calibrated_target_stableCount (mc : ℕ) (tu : ℚ) (qOn : Bool)
    (avgQ : ℤ) (s : ModState) :
    (calculate_calibrated_target mc tu qOn avgQ s).stableCount
      = s.stableCount := by
  simp only [calculate_calibrated_target, apply_ite ModState.stableCount,
    ite_self]

/-- C6: the generation-driven transitions of the calibration machine in
the CALIBRATING and STABLE phases.  In CALIBRATING, a within-tolerance
generation increments the stable count, reaching 5 moves to STABLE and
otherwise the machine stays CALIBRATING; an out-of-tolerance generation
stays CALIBRATING and decays the stable count by exactly 2 when the
deviation exceeds 1.5× tolerance, else by exactly 1, clamped at 0
(`ℕ` subtraction), so from a count of at least 3 a single step never
reaches 0.  The machine leaves STABLE exactly when the deviation exceeds
1.5× tolerance, moving to RETRAINING with both counters reset. -/
theorem c6_state_machine (maxContext : ℕ) (tu tol : ℚ) (autoCal qOn : Bool)
    (avgQ : ℤ) (actualSize : ℕ) (s : ModState) :
    (s.phase = CalPhase.CALIBRATING →
      deviation_of maxContext tu actualSize ≤ tol →
      (calibrate_target_size maxContext tu tol autoCal qOn avgQ actualSize
          s).stableCount = s.stableCount + 1 ∧
      (STABLE_THRESHOLD ≤ s.stableCount + 1 →
        (calibrate_target_size maxContext tu tol autoCal qOn avgQ actualSize
          s).phase = CalPhase.STABLE) ∧
      (s.stableCount + 1 < STABLE_THRESHOLD →
        (calibrate_target_size maxContext tu tol autoCal qOn avgQ actualSize
          s).phase = CalPhase.CALIBRATING)) ∧
    (s.phase = CalPhase.CALIBRATING →
      tol < deviation_of maxContext tu actualSize →
      (calibrate_target_size maxContext tu tol autoCal qOn avgQ actualSize
          s).stableCount
        = s.stableCount
          - (if tol * (3 / 2) < deviation_of maxContext tu actualSize
              then 2 else 1) ∧
      (calibrate_target_size maxContext tu tol autoCal qOn avgQ actualSize
          s).phase = CalPhase.CALIBRATING ∧
      (3 ≤ s.stableCount →
        0 < (calibrate_target_size maxContext tu tol autoCal qOn avgQ actualSize
          s).stableCount)) ∧
    (s.phase = CalPhase.STABLE →
      tol * (3 / 2) < deviation_of maxContext tu actualSize →
      (calibrate_target_size maxContext tu tol autoCal qOn avgQ actualSize
          s).phase = CalPhase.RETRAINING ∧
      (calibrate_target_size maxContext tu tol autoCal qOn avgQ actualSize
          s).retrainCount = 0 ∧
      (calibrate_target_size maxContext tu tol autoCal qOn avgQ actualSize
          s).stableCount = 0) ∧
    (s.phase = CalPhase.STABLE →
      deviation_of maxContext tu actualSize ≤ tol * (3 / 2) →
      calibrate_target_size maxContext tu tol autoCal qOn avgQ actualSize s
        = s) := by
  refine ⟨?_, ?_, ?_, ?_⟩
  · intro hp hdev
    simp only [calibrate_target_size, hp]
    rw [if_pos hdev]
    refine ⟨?_, ?_, ?_⟩
    · rw [apply_ite ModState.stableCount]
      simp
    · intro hth
      rw [if_pos hth]
    · intro hth
      rw [if_neg (by omega)]
  · intro hp hdev
    simp only [calibrate_target_size, hp]
    rw [if_neg (not_le.mpr hdev)]
    refine ⟨?_, ?_, ?_⟩
    · rw [calculate_calibrated_target_stableCount]
    · rw [calculate_calibrated_target_phase]
    · intro h3
      rw [calculate_calibrated_target_stableCount]
      show 0 < s.stableCount
        - (if tol * (3 / 2) < deviation_of maxContext tu actualSize
            then 2 else 1)
      split <;> omega
  · intro hp hdev
    simp only [calibrate_target_size, hp]
    rw [if_pos hdev]
    exact ⟨rfl, rfl, rfl⟩
  · intro hp hdev
    simp only [calibrate_target_size, hp]
    rw [if_neg (not_lt.mpr hdev)]

/-- C6 witness: from CALIBRATING with stable count 4 and zero deviation
(actual 80 of max context 100 at target utilization 0.8), one stable
generation reaches count 5 and the STABLE phase. -/
theorem c6_state_machine_witness :
    (calibrate_target_size 100 (8 / 10) (1 / 20) true false 0 80
        calibState4).stableCount = calibState4.stableCount + 1 ∧
    (calibrate_target_size 100 (8 / 10) (1 / 20) true false 0 80
        calibState4).phase = CalPhase.STABLE := by
  have h := (c6_state_machine 100 (8 / 10) (1 / 20) true false 0 80
    calibState4).1 rfl (by norm_num [deviation_of])
  exact ⟨h.1, h.2.1 (by decide)⟩

/-- The EMA step written against its target ratio: the update moves the
old factor toward the ratio by the adaptive weight. -/
theorem ema_step_sub (y k : ℚ) :
    ema_step y k - k
      = (1 - min (15 / 100 + |k - y| * (5 / 10)) (4 / 10)) * (y - k) := by
  unfold ema_step
  ring

theorem ema_alpha_bounds (y k : ℚ) :
    (3 / 20 : ℚ) ≤ min (15 / 100 + |k - y| * (5 / 10)) (4 / 10) ∧
    min (15 / 100 + |k - y| * (5 / 10)) (4 / 10) ≤ 2 / 5 := by
  constructor
  · refine le_min ?_ (by norm_num)
    have := abs_nonneg (k - y)
    nlinarith
  · exact le_trans (min_le_right _ _) (by norm_num)

/-- C5: with measurements of constant ratio `k`, each adaptive-EMA
update of the correction factor lands between the old value and `k`
(no overshoot), contracts the distance to `k` by at least the factor
17/20 (the smoothing weight is always in [0.15, 0.4]), and therefore the
iterated updates converge to `k`. -/
theorem c5_ema_convergence (k x : ℚ) :
    (∀ y, min y k ≤ ema_step y k ∧ ema_step y k ≤ max y k) ∧
    (∀ y, |ema_step y k - k| ≤ (17 / 20) * |y - k|) ∧
    (∀ ε : ℚ, 0 < ε → ∃ N, ∀ n, N ≤ n →
      |(fun y => ema_step y k)^[n] x - k| ≤ ε) := by
  have hcontract : ∀ y, |ema_step y k - k| ≤ (17 / 20) * |y - k| := by
    intro y
    obtain ⟨hlb, hub⟩ := ema_alpha_bounds y k
    rw [ema_step_sub, abs_mul,
      abs_of_nonneg (show (0 : ℚ) ≤ 1 - min (15 / 100 + |k - y| * (5 / 10))
        (4 / 10) by linarith)]
    have := abs_nonneg (y - k)
    nlinarith
  refine ⟨?_, hcontract, ?_⟩
  · intro y
    obtain ⟨hlb, hub⟩ := ema_alpha_bounds y k
    have hsub := ema_step_sub y k
    rcases le_total y k with hyk | hyk
    · rw [min_eq_left hyk, max_eq_right hyk]
      constructor <;> nlinarith
    · rw [min_eq_right hyk, max_eq_left hyk]
      constructor <;> nlinarith
  · have hiter : ∀ n, |(fun y => ema_step y k)^[n] x - k|
        ≤ (17 / 20) ^ n * |x - k| := by
      intro n
      induction n with
      | zero => simp
      | succ n ih =>
          rw [Function.iterate_succ_apply']
          refine le_trans (hcontract _) ?_
          have h20 : (0 : ℚ) ≤ 17 / 20 := by norm_num
          calc (17 / 20 : ℚ) * |(fun y => ema_step y k)^[n] x - k|
              ≤ (17 / 20) * ((17 / 20) ^ n * |x - k|) :=
                mul_le_mul_of_nonneg_left ih h20
            _ = (17 / 20) ^ (n + 1) * |x - k| := by ring
    intro ε hε
    obtain ⟨N, hN⟩ := exists_pow_lt_of_lt_one
      (show (0 : ℚ) < ε / (|x - k| + 1) by positivity)
      (show (17 / 20 : ℚ) < 1 by norm_num)
    refine ⟨N, fun n hn => ?_⟩
    have habs : (0 : ℚ) ≤ |x - k| := abs_nonneg _
    have h1 : ((17 : ℚ) / 20) ^ n ≤ (17 / 20) ^ N :=
      pow_le_pow_of_le_one (by norm_num) (by norm_num) hn
    have h3 : ((17 : ℚ) / 20) ^ N * |x - k| < ε := by
      have h4 : ((17 : ℚ) / 20) ^ N * (|x - k| + 1)
          < (ε / (|x - k| + 1)) * (|x - k| + 1) :=
        mul_lt_mul_of_pos_right hN (by positivity)
      rw [div_mul_cancel₀ _ (show |x - k| + 1 ≠ 0 by positivity)] at h4
      have hpow : (0 : ℚ) ≤ (17 / 20) ^ N := by positivity
      nlinarith
    refine le_trans (hiter n) (le_of_lt ?_)
    calc ((17 : ℚ) / 20) ^ n * |x - k|
        ≤ (17 / 20) ^ N * |x - k| := mul_le_mul_of_nonneg_right h1 habs
      _ < ε := h3

/-- C5 witness: the convergence clause instantiated at ratio 1/2,
start 2 and tolerance 1. -/
theorem c5_ema_convergence_witness :
    ∃ N, ∀ n, N ≤ n → |(fun y => ema_step y (1 / 2))^[n] 2 - 1 / 2| ≤ 1 :=
  (c5_ema_convergence (1 / 2) 2).2.2 1 (by norm_num)

/-- C7: the spec scenario for the summarization queue.  Five messages
needing summaries are enqueued on the idle queue and `stop()` arrives
while the third item is in flight: the first two items end with stored
summaries and cleared `needs_summary`, the in-flight third item has no
summary written and `needs_summary` still set, items four and five are
never attempted, and the queue is back to idle with its queue cleared. -/
theorem c7_stop_scenario :
    SummaryQueue.summarize (some 2) [0, 1, 2, 3, 4]
        { queue := [], active := false, stopped := false,
          msgs := List.replicate 5 ⟨false, true, false⟩ }
      = { queue := [], active := false, stopped := false,
          msgs := [⟨true, false, false⟩, ⟨true, false, false⟩,
            ⟨false, true, false⟩, ⟨false, true, false⟩,
            ⟨false, true, false⟩] } := by decide

theorem save_truncation_index_trunc (t : ℤ) (s : FlagsState) :
    (save_truncation_index t s).trunc = s.trunc := rfl

theorem save_truncation_index_cf (t : ℤ) (s : FlagsState) :
    (save_truncation_index t s).cf = s.cf := rfl

/-- Right after `save_truncation_index`, `should_recalculate_truncation`
cannot fire: the saved target equals the current setting and the saved
correction factor equals the live one. -/
theorem should_recalculate_truncation_save (t : ℤ) (s : FlagsState) :
    should_recalculate_truncation t (save_truncation_index t s) = false := by
  unfold should_recalculate_truncation save_truncation_index
  by_cases h : s.cf = 0
  · simp [h]
  · simp [h]

/-- A state whose cutoff is set and non-zero and on which the
recalculation triggers are quiet is a fixed point of the eviction
decision. -/
theorem update_message_inclusion_flags_fixed (env : TruncEnv)
    (s' : FlagsState) (hne : s'.trunc ≠ none) (hn0 : s'.trunc ≠ some 0)
    (hrec : ¬ should_recalculate_truncation env.target s' = true) :
    update_message_inclusion_flags env s' = s' := by
  simp only [update_message_inclusion_flags]
  rw [if_neg hne, if_neg hrec,
    if_neg (by rintro (h | h); exact hne h; exact hn0 h)]

/-- C9: running the eviction decision twice against the same environment
(same chat, same measured sizes, same settings, no calibration update in
between) yields the same cutoff index both times. -/
theorem c9_idempotence (env : TruncEnv) (s : FlagsState) :
    (update_message_inclusion_flags env
        (update_message_inclusion_flags env s)).trunc
      = (update_message_inclusion_flags env s).trunc := by
  set s1 : FlagsState :=
    if s.trunc = none then load_truncation_index s else s with hs1
  set s2 : FlagsState :=
    if should_recalculate_truncation env.target s1 = true
      then { s1 with trunc := none } else s1 with hs2
  have hfirst : update_message_inclusion_flags env s =
      (if s2.trunc = none ∨ s2.trunc = some 0 then
        save_truncation_index env.target
          { s2 with
            trunc := some (calculate_truncation_index env s2.cf (s2.trunc.getD 0)) }
      else s2) := rfl
  by_cases hfin : s2.trunc = none ∨ s2.trunc = some 0
  · rw [hfirst, if_pos hfin]
    have hgetD : s2.trunc.getD 0 = 0 := by
      rcases hfin with h | h <;> rw [h] <;> rfl
    rw [hgetD]
    set r := calculate_truncation_index env s2.cf 0 with hr
    set sB : FlagsState :=
      save_truncation_index env.target { s2 with trunc := some r } with hsB
    have hBtr : sB.trunc = some r := rfl
    have hBcf : sB.cf = s2.cf := rfl
    have hBrec : ¬ should_recalculate_truncation env.target sB = true := by
      rw [hsB, should_recalculate_truncation_save]
      simp
    by_cases hr0 : r = 0
    · have hsecond : update_message_inclusion_flags env sB =
          save_truncation_index env.target
            { sB with
              trunc := some (calculate_truncation_index env sB.cf (sB.trunc.getD 0)) } := by
        simp only [update_message_inclusion_flags]
        rw [if_neg (show ¬ sB.trunc = none from by rw [hBtr]; simp)]
        rw [if_neg hBrec]
        rw [if_pos (show sB.trunc = none ∨ sB.trunc = some 0 from
          Or.inr (by rw [hBtr, hr0]))]
      rw [hsecond, save_truncation_index_trunc, hBtr, hBcf]
      exact congrArg some (by rw [Option.getD_some, hr0, ← hr]; exact hr0)
    · rw [update_message_inclusion_flags_fixed env sB (by rw [hBtr]; simp)
        (by rw [hBtr]; simp [hr0]) hBrec]
  · rw [hfirst, if_neg hfin]
    push_neg at hfin
    obtain ⟨hne, hn0⟩ := hfin
    have hrec : ¬ should_recalculate_truncation env.target s1 = true := by
      intro h
      apply hne
      rw [hs2, if_pos h]
    have hs2eq : s2 = s1 := by rw [hs2, if_neg hrec]
    rw [update_message_inclusion_flags_fixed env s2 hne hn0
      (by rw [hs2eq]; exact hrec)]

/-- C8 counterexample: two records with the same hash, the second one
more recent (timestamp 200 vs 100).  `detect_duplicates` keeps the OLDER
record (id 1) in `uniqueResults` and marks the newer record (id 2) for
deletion — the opposite of "keeping the most recent copy". -/
theorem c8_dedupe_counterexample :
    detect_duplicates [⟨1, some 7, 100⟩, ⟨2, some 7, 200⟩]
        = ([⟨1, some 7, 100⟩], [2]) ∧
    (⟨2, some 7, 200⟩ : MemRecord)
        ∉ (detect_duplicates [⟨1, some 7, 100⟩, ⟨2, some 7, 200⟩]).1 := by
  decide

theorem detect_aux_single (hsh : ℕ) (hh : hsh ≠ 0) :
    ∀ (rest : List MemRecord) (best : MemRecord) (dups : List ℕ),
      best.hash = some hsh → (∀ r ∈ rest, r.hash = some hsh) →
      ∃ m d, detect_duplicates_aux [(hsh, best)] [best] dups rest = ([m], d) ∧
        (m = best ∨ m ∈ rest) ∧ m.timestamp ≤ best.timestamp ∧
        (∀ r ∈ rest, m.timestamp ≤ r.timestamp) ∧
        d.length = dups.length + rest.length := by
  intro rest
  induction rest with
  | nil =>
      intro best dups hb _
      exact ⟨best, dups, rfl, Or.inl rfl, le_refl _, by simp, by simp⟩
  | cons r rest ih =>
      intro best dups hb hall
      have hr : r.hash = some hsh := hall r (by simp)
      have hrt : r.hashTruthy = true := by
        simp [MemRecord.hashTruthy, hr, hh]
      have hrest' : ∀ r' ∈ rest, r'.hash = some hsh := fun r' hr' =>
        hall r' (by simp [hr'])
      simp only [detect_duplicates_aux, hrt, not_true, if_neg, hr,
        Option.getD_some]
      rw [if_neg (by simp)]
      have hlook : List.lookup hsh [(hsh, best)] = some best := by
        simp [List.lookup]
      simp only [hlook]
      by_cases hts : best.timestamp < r.timestamp
      · rw [if_pos hts]
        obtain ⟨m, d, heq, hmem, hleb, hler, hlen⟩ :=
          ih best (dups ++ [r.id]) hb hrest'
        refine ⟨m, d, heq, ?_, hleb, ?_, ?_⟩
        · rcases hmem with h | h
          · exact Or.inl h
          · exact Or.inr (by simp [h])
        · intro r' hr'
          rcases List.mem_cons.mp hr' with h | h
          · subst h; exact le_trans hleb (le_of_lt hts)
          · exact hler r' h
        · simp at hlen
          simp [hlen]
          omega
      · rw [if_neg hts]
        have hset : setAssoc hsh r [(hsh, best)] = [(hsh, r)] := by
          simp [setAssoc]
        have hrepl : replaceFirst best r [best] = [r] := by
          simp [replaceFirst]
        rw [hset, hrepl]
        obtain ⟨m, d, heq, hmem, hleb, hler, hlen⟩ :=
          ih r (dups ++ [best.id]) hr hrest'
        refine ⟨m, d, heq, ?_, ?_, ?_, ?_⟩
        · rcases hmem with h | h
          · exact Or.inr (by simp [h])
          · exact Or.inr (by simp [h])
        · exact le_trans hleb (not_lt.mp hts)
        · intro r' hr'
          rcases List.mem_cons.mp hr' with h | h
          · subst h; exact hleb
          · exact hler r' h
        · simp at hlen
          simp [hlen]
          omega

/-- C8 amended: among retrieved records sharing one (truthy) content
hash, the retriever keeps exactly one copy in the returned result set —
one with the MINIMAL timestamp (the oldest copy, ties kept at the
later-scanned record) — and marks all other copies for deletion from the
vector store; the claim's "most recent copy" is wrong, the code keeps
the oldest. -/
theorem c8_dedupe_amended (hsh : ℕ) (hh : hsh ≠ 0) (r0 : MemRecord)
    (rest : List MemRecord) (h0 : r0.hash = some hsh)
    (hrest : ∀ r ∈ rest, r.hash = some hsh) :
    ∃ m, (detect_duplicates (r0 :: rest)).1 = [m] ∧ (m ∈ r0 :: rest) ∧
      (∀ r ∈ r0 :: rest, m.timestamp ≤ r.timestamp) ∧
      (detect_duplicates (r0 :: rest)).2.length = (r0 :: rest).length - 1 := by
  have hrt : r0.hashTruthy = true := by
    simp [MemRecord.hashTruthy, h0, hh]
  have hstep : detect_duplicates (r0 :: rest)
      = detect_duplicates_aux [(hsh, r0)] [r0] [] rest := by
    unfold detect_duplicates
    simp only [detect_duplicates_aux, hrt, h0, Option.getD_some]
    rw [if_neg (by simp)]
    simp [List.lookup, setAssoc]
  obtain ⟨m, d, heq, hmem, hleb, hler, hlen⟩ :=
    detect_aux_single hsh hh rest r0 [] h0 hrest
  rw [hstep, heq]
  refine ⟨m, rfl, ?_, ?_, ?_⟩
  · rcases hmem with h | h
    · exact by simp [h]
    · exact by simp [h]
  · intro r hr
    rcases List.mem_cons.mp hr with h | h
    · subst h; exact hleb
    · exact hler r h
  · simpa using hlen

/-- C8 witness: the amended statement evaluated on three copies of one
hash with timestamps 300, 100, 200. -/
theorem c8_dedupe_amended_witness :
    ∃ m, (detect_duplicates
        [⟨1, some 7, 300⟩, ⟨2, some 7, 100⟩, ⟨3, some 7, 200⟩]).1 = [m] ∧
      (m ∈ [(⟨1, some 7, 300⟩ : MemRecord), ⟨2, some 7, 100⟩,
        ⟨3, some 7, 200⟩]) ∧
      (∀ r ∈ [(⟨1, some 7, 300⟩ : MemRecord), ⟨2, some 7, 100⟩,
        ⟨3, some 7, 200⟩], m.timestamp ≤ r.timestamp) ∧
      (detect_duplicates
        [⟨1, some 7, 300⟩, ⟨2, some 7, 100⟩, ⟨3, some 7, 200⟩]).2.length
        = ([⟨1, some 7, 300⟩, ⟨2, some 7, 100⟩,
            (⟨3, some 7, 200⟩ : MemRecord)]).length - 1 :=
  c8_dedupe_amended 7 (by decide) ⟨1, some 7, 300⟩
    [⟨2, some 7, 100⟩, ⟨3, some 7, 200⟩] rfl (by decide)

end ContextTruncator
